import Mathlib

/-!
Verification development for the splitwisely shared-expense ledger.

The embedding mirrors the TypeScript computation core:
* `computeEqualSplit` from `src/services/expenses.ts`
* the balance fold of `src/pages/DashboardPage.tsx`
  (`parseCurrencyAmount`, the per-group tracker, settlement folding,
  member seeding, and the per-currency totals)
* `normalizeGroupMembers` from `src/services/groups.ts`
* the validation prefixes of `createExpense` / `updateExpense`
  (`src/services/expenses.ts`) and `createSettlement` /
  `updateSettlement` (settlements service)

Monetary values are modelled as exact rationals (the source stores
decimal strings and parses them at read time); JavaScript `Math.round`
is modelled as `jsRound` (floor of x + 1/2, which is exactly what
`Math.round` computes for every sign), and `Math.floor` of an exact
division as `Int.fdiv`.
-/

namespace Splitwisely

/-- JavaScript `Math.round`: rounds half toward positive infinity,
i.e. `⌊x + 1/2⌋`. -/
def jsRound (q : ℚ) : ℤ := ⌊q + 1/2⌋

/-- `computeEqualSplit` from `src/services/expenses.ts`:
clamps the participant count to at least 1, converts the amount to
integer cents with `Math.round`, takes the floored base share and
distributes the remainder cent-by-cent to the earliest indices, then
converts each share back to currency units by dividing by 100. -/
def computeEqualSplit (amount : ℚ) (participantIds : List String) : List ℚ :=
  let participantCount : ℕ := max participantIds.length 1
  let totalCents : ℤ := jsRound (amount * 100)
  let baseShare : ℤ := totalCents.fdiv participantCount
  let remainder : ℤ := totalCents - baseShare * participantCount
  participantIds.mapIdx (fun index _ =>
    let shareCents : ℤ := baseShare + (if (index : ℤ) < remainder then 1 else 0)
    (shareCents : ℚ) / 100)

/-! ## Balance aggregation (DashboardPage fold) -/

/-- The value read from an expense/settlement numeric field before
`parseCurrencyAmount` is applied: a finite number, a string (which
either parses to a finite number or does not), or any other value
(`null`, `undefined`, objects). -/
inductive CurrencyInput where
  | num (q : ℚ)
  | str (parsed : Option ℚ)
  | other
  deriving DecidableEq, Repr

/-- `parseCurrencyAmount` from `src/pages/DashboardPage.tsx`: a finite
number is returned as-is, a string is parsed with `parseFloat` (falling
back to 0 when the result is not finite), and anything else becomes 0. -/
def parseCurrencyAmount : CurrencyInput → ℚ
  | .num q => q
  | .str (some q) => q
  | .str none => 0
  | .other => 0

/-- Per-member accumulator of the dashboard fold: `{ paid, owed }`. -/
structure Acc where
  paid : ℚ
  owed : ℚ
  deriving DecidableEq, Repr

/-- The dashboard's `tracker` map, modelled as an association list in
insertion order (JavaScript `Map` iterates in insertion order and
`ensureTracker` inserts a key at most once). -/
abbrev Tracker := List (String × Acc)

/-- `tracker.has(memberId)`. -/
def containsId (t : Tracker) (memberId : String) : Bool :=
  t.any (fun p => p.1 = memberId)

/-- `ensureTracker` from `DashboardPage`: insert `{paid: 0, owed: 0}`
for the id when it is not yet tracked. -/
def ensureTracker (t : Tracker) (memberId : String) : Tracker :=
  if containsId t memberId then t else t ++ [(memberId, ⟨0, 0⟩)]

/-- In-place mutation of the record returned by `ensureTracker`:
update the (unique) entry with the given key. -/
def modifyAcc : Tracker → String → (Acc → Acc) → Tracker
  | [], _, _ => []
  | p :: rest, memberId, f =>
      if p.1 = memberId then (p.1, f p.2) :: rest
      else p :: modifyAcc rest memberId f

/-- Read a member's accumulator, defaulting to `{paid: 0, owed: 0}`
for an untracked id (matching what `ensureTracker` would create). -/
def lookupAcc (t : Tracker) (memberId : String) : Acc :=
  ((t.find? (fun p => p.1 = memberId)).map Prod.snd).getD ⟨0, 0⟩

/-- A member's net position `paid - owed` in a tracker. -/
def netOf (t : Tracker) (memberId : String) : ℚ :=
  (lookupAcc t memberId).paid - (lookupAcc t memberId).owed

/-- One split row of an expense (`expense_splits`): member id and share.
The joined profile record only feeds display names and never the
accumulator, so it is not part of the embedding. -/
structure ExpenseSplit where
  memberId : String
  share : CurrencyInput
  deriving DecidableEq, Repr

/-- An expense row as the dashboard fold consumes it: nullable payer id,
raw amount, and split rows. -/
structure Expense where
  payerId : Option String
  amount : CurrencyInput
  splits : List ExpenseSplit
  deriving DecidableEq, Repr

/-- A settlement row as the dashboard fold consumes it. -/
structure Settlement where
  fromMember : String
  toMember : String
  amount : CurrencyInput
  deriving DecidableEq, Repr

/-- The expense step of the dashboard fold: add the parsed amount to the
payer's `paid` (when a payer id is present), then add each split's
parsed share to that member's `owed`; every touched id is inserted via
`ensureTracker` first. -/
def applyExpense (t : Tracker) (e : Expense) : Tracker :=
  let amount := parseCurrencyAmount e.amount
  let t1 :=
    match e.payerId with
    | some pid =>
        modifyAcc (ensureTracker t pid) pid (fun a => { a with paid := a.paid + amount })
    | none => t
  e.splits.foldl
    (fun acc s =>
      modifyAcc (ensureTracker acc s.memberId) s.memberId
        (fun a => { a with owed := a.owed + parseCurrencyAmount s.share }))
    t1

/-- The settlement step of the dashboard fold: both endpoints are
inserted via `ensureTracker`, then the parsed amount is subtracted from
the payer's `owed` and from the receiver's `paid`. -/
def applySettlement (t : Tracker) (s : Settlement) : Tracker :=
  let amount := parseCurrencyAmount s.amount
  let t1 := ensureTracker (ensureTracker t s.fromMember) s.toMember
  let t2 := modifyAcc t1 s.fromMember (fun a => { a with owed := a.owed - amount })
  modifyAcc t2 s.toMember (fun a => { a with paid := a.paid - amount })

/-- The whole per-group fold of `DashboardPage`: expenses first, then
seeding of every current group member, then settlements — exactly the
statement order of the source. -/
def computeGroupTracker (memberIds : List String) (expenses : List Expense)
    (settlements : List Settlement) : Tracker :=
  let afterExpenses := expenses.foldl applyExpense []
  let seeded := memberIds.foldl ensureTracker afterExpenses
  settlements.foldl applySettlement seeded

/-- Sum of `paid - owed` over every tracked member. -/
def sumNet (t : Tracker) : ℚ :=
  (t.map (fun p => p.2.paid - p.2.owed)).sum

/-- Sum of an expense's parsed split shares. -/
def splitsTotal (e : Expense) : ℚ :=
  (e.splits.map (fun s => parseCurrencyAmount s.share)).sum

/-- The exact amount an expense adds to the group-wide net sum: the
parsed amount when a payer id is present, minus the parsed split
shares. -/
def expenseDelta (e : Expense) : ℚ :=
  (match e.payerId with
   | some _ => parseCurrencyAmount e.amount
   | none => 0) - splitsTotal e

/-- `normalizeGroupMembers` from `src/services/groups.ts`, restricted to
the member-id content (profile enrichment only affects display names):
the owner is appended as an implicit member when no membership row for
the owner exists. -/
def normalizeGroupMembers (ownerId : String) (memberIds : List String) : List String :=
  if memberIds.any (fun m => m = ownerId) then memberIds else memberIds ++ [ownerId]

/-! ## Per-currency aggregation (DashboardPage `currencyTotals`) -/

/-- A member's computed balance row. -/
structure MemberBalance where
  memberId : String
  paid : ℚ
  owed : ℚ
  net : ℚ
  deriving DecidableEq, Repr

/-- The tracker entries turned into `MemberBalance` rows with
`net = paid - owed` (the dashboard additionally sorts by descending net
and attaches display names; neither affects the amounts). -/
def memberSummaries (t : Tracker) : List MemberBalance :=
  t.map (fun p => ⟨p.1, p.2.paid, p.2.owed, p.2.paid - p.2.owed⟩)

/-- One group's summary as consumed by the currency aggregation:
its (defaulted) currency and the member balance rows. -/
structure GroupSummary where
  currency : String
  members : List MemberBalance
  deriving DecidableEq, Repr

/-- The per-currency accumulator `{ paid, owed, net }`. -/
structure Totals where
  paid : ℚ
  owed : ℚ
  net : ℚ
  deriving DecidableEq, Repr

/-- Adding one member-balance row into a currency bucket. -/
def addTotals (a : Totals) (m : MemberBalance) : Totals :=
  ⟨a.paid + m.paid, a.owed + m.owed, a.net + m.net⟩

/-- `currencyTotals.set(currency, entry)` where `entry` starts from the
existing bucket or `{0,0,0}`: update the bucket in place, appending a
new key in insertion order. -/
def upsertTotals : List (String × Totals) → String → MemberBalance → List (String × Totals)
  | [], currency, m => [(currency, addTotals ⟨0, 0, 0⟩ m)]
  | (k, v) :: rest, currency, m =>
      if k = currency then (k, addTotals v m) :: rest
      else (k, v) :: upsertTotals rest currency m

/-- The `currencyTotals` fold of `DashboardPage`: for each group summary,
find the target user's balance row; skip the group when there is none,
otherwise add the row into the bucket keyed by the group's currency. -/
def currencyTotals (userId : String) (summaries : List GroupSummary) :
    List (String × Totals) :=
  summaries.foldl
    (fun acc summary =>
      match summary.members.find? (fun m => m.memberId = userId) with
      | none => acc
      | some currentUser => upsertTotals acc summary.currency currentUser)
    []

/-- Look up one currency bucket. -/
def lookupTotals (l : List (String × Totals)) (currency : String) : Option Totals :=
  ((l.find? (fun p => p.1 = currency)).map Prod.snd)

/-- Specification-side description of the aggregation (named after the
spec's `aggregateByCurrency` contract, for comparison with the
implementation fold): the target user's balance rows of the groups
carrying the given currency, in group order; groups without a row for
the user contribute nothing. -/
def userEntriesFor (userId : String) (summaries : List GroupSummary)
    (currency : String) : List MemberBalance :=
  summaries.filterMap
    (fun s =>
      if s.currency = currency then s.members.find? (fun m => m.memberId = userId)
      else none)

/-! ## Write-boundary validation (services) -/

/-- A caller-supplied split share (`SplitShareInput`). -/
structure SplitShareInput where
  memberId : String
  share : ℚ
  deriving DecidableEq, Repr

/-- Input of `createExpense` / `updateExpense` (date and id fields that
do not participate in validation are kept as plain strings). -/
structure CreateExpenseInput where
  groupId : String
  description : String
  amount : ℚ
  payerId : String
  expenseDate : String
  splits : List SplitShareInput
  notes : Option String
  deriving DecidableEq, Repr

/-- The validation prefix of `createExpense` from
`src/services/expenses.ts` (the Supabase writes that follow are I/O and
are elided; they run only when validation passes): reject an empty
split list, then reject when the split total differs from the amount by
more than 0.01. -/
def createExpense (input : CreateExpenseInput) : Except String Unit :=
  if input.splits.length = 0 then
    Except.error "Provide at least one split participant"
  else
    let totalSplit := input.splits.foldl (fun sum split => sum + split.share) 0
    if |totalSplit - input.amount| > 1/100 then
      Except.error "Split shares must add up to the total amount"
    else Except.ok ()

/-- The validation prefix of `updateExpense`, identical to
`createExpense`'s. -/
def updateExpense (input : CreateExpenseInput) : Except String Unit :=
  if input.splits.length = 0 then
    Except.error "Provide at least one split participant"
  else
    let totalSplit := input.splits.foldl (fun sum split => sum + split.share) 0
    if |totalSplit - input.amount| > 1/100 then
      Except.error "Split shares must add up to the total amount"
    else Except.ok ()

/-- Input of `createSettlement`. -/
structure CreateSettlementInput where
  groupId : String
  fromMemberId : String
  toMemberId : String
  amount : ℚ
  notes : Option String
  deriving DecidableEq, Repr

/-- A stored settlement row (`settlement_date` bookkeeping and the
`toFixed(2)` string rendering of the amount are presentation details
that follow the validation and are elided). -/
structure SettlementRow where
  groupId : String
  fromMember : String
  toMember : String
  amount : ℚ
  notes : Option String
  deriving DecidableEq, Repr

/-- `createSettlement` from the settlements service: rejects identical
from/to members before any write; otherwise the inserted row carries the
input fields. -/
def createSettlement (input : CreateSettlementInput) : Except String SettlementRow :=
  if input.fromMemberId = input.toMemberId then
    Except.error "Members must be different for a settlement"
  else
    Except.ok
      { groupId := input.groupId
        fromMember := input.fromMemberId
        toMember := input.toMemberId
        amount := input.amount
        notes := input.notes }

/-- Input of `updateSettlement`: every field optional; `notes` uses an
outer `Option` for "field not provided" and an inner one for an
explicit null. -/
structure UpdateSettlementInput where
  id : String
  groupId : Option String
  fromMemberId : Option String
  toMemberId : Option String
  amount : Option ℚ
  notes : Option (Option String)
  deriving DecidableEq, Repr

/-- `updateSettlement` from the settlements service: builds the update
payload from the provided fields and applies it to the existing row.
It performs no validation of its own — in particular it never compares
the resulting from/to members. -/
def updateSettlement (input : UpdateSettlementInput) (existing : SettlementRow) :
    Except String SettlementRow :=
  Except.ok
    { groupId := input.groupId.getD existing.groupId
      fromMember := input.fromMemberId.getD existing.fromMember
      toMember := input.toMemberId.getD existing.toMember
      amount := input.amount.getD existing.amount
      notes := input.notes.getD existing.notes }

/-! ## SplitAllocator lemmas -/

/-- `mapIdx` with a function that ignores the element is a map over the
index range. -/
theorem mapIdx_index_only {α β : Type} (g : ℕ → β) (l : List α) :
    l.mapIdx (fun i _ => g i) = (List.range l.length).map g := by
  induction l using List.reverseRecOn with
  | nil => rfl
  | append_singleton xs x ih =>
      rw [List.mapIdx_append_one, ih, List.length_append, List.length_singleton,
        List.range_succ, List.map_append, List.map_singleton]

/-- Summing `base` plus an extra unit on the first `rem` indices over
`range n` gives `base * n + min rem n`. -/
theorem sum_range_base_ite (base rem : ℤ) (h0 : 0 ≤ rem) (n : ℕ) :
    ((List.range n).map (fun (i : ℕ) => base + if (i : ℤ) < rem then (1 : ℤ) else 0)).sum
      = base * n + min rem n := by
  induction n with
  | zero =>
      simp [min_eq_right h0]
  | succ n ih =>
      rw [List.range_succ, List.map_append, List.sum_append, ih, List.map_singleton,
        List.sum_singleton]
      rcases le_or_lt rem (n : ℤ) with h | h
      · rw [min_eq_left h, min_eq_left (h.trans (by push_cast; omega)), if_neg (not_lt.mpr h)]
        push_cast
        ring
      · rw [min_eq_right h.le, min_eq_right (by push_cast; omega), if_pos h]
        push_cast
        ring

/-- `jsRound` of a positive rational is non-negative. -/
theorem jsRound_nonneg {q : ℚ} (h : 0 < q) : 0 ≤ jsRound q := by
  unfold jsRound
  rw [Int.le_floor]
  push_cast
  linarith

/-- C1. **Split exactness**: for every amount `A > 0` and non-empty
participant list, each returned share is non-negative and the shares,
converted back to integer cents (multiplied by 100), sum exactly to
`jsRound (A * 100)` — the expense total in integer cents. -/
theorem equal_split_exact (A : ℚ) (ids : List String) (hA : 0 < A) (hids : ids ≠ []) :
    (∀ s ∈ computeEqualSplit A ids, 0 ≤ s) ∧
      ((computeEqualSplit A ids).map (fun s => s * 100)).sum
        = ((jsRound (A * 100) : ℤ) : ℚ) := by
  have hlen : 1 ≤ ids.length := List.length_pos.mpr hids
  have hcnt : max ids.length 1 = ids.length := Nat.max_eq_left hlen
  have htotal : 0 ≤ jsRound (A * 100) := jsRound_nonneg (by positivity)
  set total := jsRound (A * 100) with htotal_def
  set n := ids.length with hn
  have hnpos : (0 : ℤ) < (n : ℤ) := by exact_mod_cast hlen
  set base := total.fdiv (n : ℤ) with hbase
  have hbase0 : 0 ≤ base := Int.fdiv_nonneg htotal hnpos.le
  have hfm : (n : ℤ) * base + total.fmod (n : ℤ) = total := Int.fdiv_add_fmod total (n : ℤ)
  have hrem_eq : total - base * (n : ℤ) = total.fmod (n : ℤ) := by
    rw [mul_comm] at hfm
    omega
  have hrem0 : 0 ≤ total - base * (n : ℤ) := by
    rw [hrem_eq]
    exact Int.fmod_nonneg' total (by omega)
  have hremlt : total - base * (n : ℤ) < (n : ℤ) := by
    rw [hrem_eq]
    exact Int.fmod_lt_of_pos total hnpos
  have hsplit : computeEqualSplit A ids
      = (List.range n).map
          (fun (i : ℕ) =>
            ((base + if (i : ℤ) < total - base * (n : ℤ) then (1 : ℤ) else 0 : ℤ) : ℚ) / 100) := by
    unfold computeEqualSplit
    rw [mapIdx_index_only]
    rw [hcnt]
  constructor
  · intro s hs
    rw [hsplit] at hs
    rcases List.mem_map.mp hs with ⟨i, _, rfl⟩
    have : (0 : ℤ) ≤ base + if (i : ℤ) < total - base * (n : ℤ) then (1 : ℤ) else 0 := by
      split <;> omega
    positivity
  · rw [hsplit, List.map_map]
    have hfun :
        ((fun s => s * 100) ∘
          fun (i : ℕ) =>
            ((base + if (i : ℤ) < total - base * (n : ℤ) then (1 : ℤ) else 0 : ℤ) : ℚ) / 100)
        = fun (i : ℕ) =>
            ((base + if (i : ℤ) < total - base * (n : ℤ) then (1 : ℤ) else 0 : ℤ) : ℚ) := by
      funext i
      simp [Function.comp]
    rw [hfun]
    have hcast : ∀ (L : List ℕ),
        (L.map
            (fun (i : ℕ) =>
              ((base + if (i : ℤ) < total - base * (n : ℤ) then (1 : ℤ) else 0 : ℤ) : ℚ))).sum
          = ((L.map
              (fun (i : ℕ) => base + if (i : ℤ) < total - base * (n : ℤ) then (1 : ℤ) else 0)).sum : ℤ) := by
      intro L
      induction L with
      | nil => simp
      | cons a L ih =>
          simp only [List.map_cons, List.sum_cons, ih]
          push_cast
          ring
    rw [hcast, sum_range_base_ite _ _ hrem0, min_eq_left hremlt.le]
    push_cast
    ring

/-- C1 witness: `A = 10`, three participants. -/
theorem equal_split_exact_witness :
    (∀ s ∈ computeEqualSplit 10 ["a", "b", "c"], 0 ≤ s) ∧
      ((computeEqualSplit 10 ["a", "b", "c"]).map (fun s => s * 100)).sum
        = ((jsRound (10 * 100) : ℤ) : ℚ) :=
  equal_split_exact 10 ["a", "b", "c"] (by norm_num) (by simp)

/-- C4. **Split determinism and order-sensitivity**: the share list is a
pure function of the amount and the list length (positions, not
identities), and splitting 10.00 among three participants yields
`[3.34, 3.33, 3.33]` whichever order the participants are listed in, so
the extra cent always goes to the first-listed participant. -/
theorem equal_split_position_based :
    (∀ (A : ℚ) (ids₁ ids₂ : List String), ids₁.length = ids₂.length →
        computeEqualSplit A ids₁ = computeEqualSplit A ids₂) ∧
      computeEqualSplit 10 ["a", "b", "c"] = [334/100, 333/100, 333/100] ∧
      computeEqualSplit 10 ["c", "b", "a"] = [334/100, 333/100, 333/100] := by
  refine ⟨?_, ?_, ?_⟩
  · intro A ids₁ ids₂ h
    unfold computeEqualSplit
    rw [mapIdx_index_only, mapIdx_index_only, h]
  · norm_num [computeEqualSplit, jsRound, List.mapIdx, List.mapIdx.go, Int.fdiv]
  · norm_num [computeEqualSplit, jsRound, List.mapIdx, List.mapIdx.go, Int.fdiv]

/-- C4 witness: two concrete same-length lists produce the same shares. -/
theorem equal_split_position_based_witness :
    computeEqualSplit 10 ["a", "b", "c"] = computeEqualSplit 10 ["x", "y", "z"] :=
  equal_split_position_based.1 10 ["a", "b", "c"] ["x", "y", "z"] rfl

/-- C10. **Total, defensive split computation**: `computeEqualSplit` is a
total function (it never throws; the participant count is clamped to at
least 1, so there is no division by zero), its result always has the
same length (and order of positions) as the participant list, and the
empty participant list yields the empty result. -/
theorem equal_split_total_and_length (A : ℚ) (ids : List String) :
    (computeEqualSplit A ids).length = ids.length ∧ computeEqualSplit A [] = [] := by
  constructor
  · unfold computeEqualSplit
    rw [mapIdx_index_only, List.length_map, List.length_range]
  · rfl

/-! ## Tracker lemmas -/

theorem lookupAcc_nil (j : String) : lookupAcc [] j = ⟨0, 0⟩ := rfl

theorem lookupAcc_cons (p : String × Acc) (rest : Tracker) (j : String) :
    lookupAcc (p :: rest) j = if p.1 = j then p.2 else lookupAcc rest j := by
  unfold lookupAcc
  by_cases h : p.1 = j
  · simp [h]
  · simp [h]

theorem containsId_cons (p : String × Acc) (rest : Tracker) (j : String) :
    containsId (p :: rest) j = (decide (p.1 = j) || containsId rest j) := by
  simp [containsId]

/-- An id is tracked exactly when `find?` hits an entry for it. -/
theorem containsId_eq_false_iff (t : Tracker) (j : String) :
    containsId t j = false ↔ t.find? (fun p => p.1 = j) = none := by
  induction t with
  | nil => simp [containsId]
  | cons p rest ih =>
      by_cases h : p.1 = j
      · simp [containsId_cons, h, List.find?_cons_of_pos]
      · simp [containsId_cons, h, List.find?_cons_of_neg, ih]

/-- Appending a zero entry for an id does not change any looked-up
accumulator: the absent id read as `⟨0, 0⟩` already. -/
theorem lookupAcc_append_zero (t : Tracker) (i j : String) :
    lookupAcc (t ++ [(i, ⟨0, 0⟩)]) j = lookupAcc t j := by
  induction t with
  | nil =>
      by_cases h : i = j <;> simp [lookupAcc_cons, lookupAcc_nil, h]
  | cons p rest ih =>
      rw [List.cons_append, lookupAcc_cons, lookupAcc_cons]
      by_cases h : p.1 = j
      · simp [h]
      · simp only [h, if_false]
        exact ih

/-- `ensureTracker` never changes any looked-up accumulator. -/
theorem lookupAcc_ensure (t : Tracker) (i j : String) :
    lookupAcc (ensureTracker t i) j = lookupAcc t j := by
  unfold ensureTracker
  split
  · rfl
  · exact lookupAcc_append_zero t i j

theorem containsId_ensure_self (t : Tracker) (i : String) :
    containsId (ensureTracker t i) i = true := by
  unfold ensureTracker
  split
  · assumption
  · induction t with
    | nil => simp [containsId]
    | cons p rest ih => simp_all [containsId]

theorem containsId_ensure_mono (t : Tracker) (i j : String)
    (h : containsId t j = true) : containsId (ensureTracker t i) j = true := by
  unfold ensureTracker
  split
  · exact h
  · simp_all [containsId]

theorem containsId_modify (t : Tracker) (i j : String) (f : Acc → Acc) :
    containsId (modifyAcc t i f) j = containsId t j := by
  induction t with
  | nil => rfl
  | cons p rest ih =>
      unfold modifyAcc
      split
      · simp [containsId_cons]
      · simp [containsId_cons, ih]

theorem lookupAcc_modify_self (t : Tracker) (i : String) (f : Acc → Acc)
    (h : containsId t i = true) :
    lookupAcc (modifyAcc t i f) i = f (lookupAcc t i) := by
  induction t with
  | nil => simp [containsId] at h
  | cons p rest ih =>
      unfold modifyAcc
      by_cases hp : p.1 = i
      · simp [hp, lookupAcc_cons]
      · rw [if_neg hp, lookupAcc_cons, lookupAcc_cons, if_neg hp, if_neg hp]
        exact ih (by simpa [containsId_cons, hp] using h)

theorem lookupAcc_modify_other (t : Tracker) (i j : String) (f : Acc → Acc)
    (h : j ≠ i) : lookupAcc (modifyAcc t i f) j = lookupAcc t j := by
  induction t with
  | nil => rfl
  | cons p rest ih =>
      unfold modifyAcc
      by_cases hp : p.1 = i
      · rw [if_pos hp, lookupAcc_cons, lookupAcc_cons]
        have : ¬ p.1 = j := by
          rw [hp]
          exact fun hij => h hij.symm
        simp [this]
      · rw [if_neg hp, lookupAcc_cons, lookupAcc_cons, ih]

/-- C2. **Settlement effect**: folding one settlement of parsed amount
`X` from `A` to `B` (with `A ≠ B`) subtracts `X` from `A`'s `owed` and
from `B`'s `paid`, leaves every other member's accumulator unchanged,
and therefore shifts `A`'s net up by `X` and `B`'s net down by `X`
(absent ids read as the freshly-seeded `⟨0, 0⟩`). -/
theorem settlement_fold_effect (t : Tracker) (s : Settlement) (X : ℚ)
    (hAB : s.fromMember ≠ s.toMember) (hX : parseCurrencyAmount s.amount = X) :
    (lookupAcc (applySettlement t s) s.fromMember).owed
        = (lookupAcc t s.fromMember).owed - X ∧
      (lookupAcc (applySettlement t s) s.fromMember).paid
        = (lookupAcc t s.fromMember).paid ∧
      (lookupAcc (applySettlement t s) s.toMember).paid
        = (lookupAcc t s.toMember).paid - X ∧
      (lookupAcc (applySettlement t s) s.toMember).owed
        = (lookupAcc t s.toMember).owed ∧
      (∀ C, C ≠ s.fromMember → C ≠ s.toMember →
        lookupAcc (applySettlement t s) C = lookupAcc t C) ∧
      netOf (applySettlement t s) s.fromMember = netOf t s.fromMember + X ∧
      netOf (applySettlement t s) s.toMember = netOf t s.toMember - X := by
  unfold applySettlement
  rw [hX]
  set t1 := ensureTracker (ensureTracker t s.fromMember) s.toMember with ht1
  have hlook1 : ∀ j, lookupAcc t1 j = lookupAcc t j := by
    intro j
    rw [ht1, lookupAcc_ensure, lookupAcc_ensure]
  have hcF : containsId t1 s.fromMember = true :=
    containsId_ensure_mono _ _ _ (containsId_ensure_self t s.fromMember)
  have hcT : containsId t1 s.toMember = true :=
    containsId_ensure_self _ s.toMember
  set t2 := modifyAcc t1 s.fromMember (fun a => { a with owed := a.owed - X }) with ht2
  have h2F : lookupAcc t2 s.fromMember
      = { lookupAcc t1 s.fromMember with owed := (lookupAcc t1 s.fromMember).owed - X } :=
    lookupAcc_modify_self _ _ _ hcF
  have h2T : lookupAcc t2 s.toMember = lookupAcc t1 s.toMember :=
    lookupAcc_modify_other _ _ _ _ (fun h => hAB h.symm)
  have hcT2 : containsId t2 s.toMember = true := by
    rw [ht2, containsId_modify]
    exact hcT
  have h3T : lookupAcc (modifyAcc t2 s.toMember (fun a => { a with paid := a.paid - X })) s.toMember
      = { lookupAcc t2 s.toMember with paid := (lookupAcc t2 s.toMember).paid - X } :=
    lookupAcc_modify_self _ _ _ hcT2
  have h3F : lookupAcc (modifyAcc t2 s.toMember (fun a => { a with paid := a.paid - X })) s.fromMember
      = lookupAcc t2 s.fromMember :=
    lookupAcc_modify_other _ _ _ _ hAB
  refine ⟨?_, ?_, ?_, ?_, ?_, ?_, ?_⟩
  · rw [h3F, h2F, hlook1]
  · rw [h3F, h2F, hlook1]
  · rw [h3T, h2T, hlook1]
  · rw [h3T, h2T, hlook1]
  · intro C hCF hCT
    rw [lookupAcc_modify_other _ _ _ _ hCT, lookupAcc_modify_other _ _ _ _ hCF, hlook1]
  · unfold netOf
    rw [h3F, h2F, hlook1]
    dsimp
    ring
  · unfold netOf
    rw [h3T, h2T, hlook1]
    dsimp
    ring

/-- C2 witness: a concrete settlement of 5 from `"a"` to `"b"` over an
empty tracker. -/
theorem settlement_fold_effect_witness :
    netOf (applySettlement [] ⟨"a", "b", .num 5⟩) "a" = netOf ([] : Tracker) "a" + 5 :=
  (settlement_fold_effect [] ⟨"a", "b", .num 5⟩ 5 (by decide) rfl).2.2.2.2.2.1

/-! ## Zero-sum lemmas -/

theorem sumNet_nil : sumNet [] = 0 := rfl

theorem sumNet_cons (p : String × Acc) (rest : Tracker) :
    sumNet (p :: rest) = (p.2.paid - p.2.owed) + sumNet rest := by
  simp [sumNet]

theorem sumNet_ensure (t : Tracker) (i : String) :
    sumNet (ensureTracker t i) = sumNet t := by
  unfold ensureTracker
  split
  · rfl
  · simp [sumNet]

/-- Modifying one tracked entry changes the net sum by exactly the
change of that entry's own net. -/
theorem sumNet_modify (t : Tracker) (i : String) (f : Acc → Acc)
    (h : containsId t i = true) :
    sumNet (modifyAcc t i f)
      = sumNet t + ((f (lookupAcc t i)).paid - (f (lookupAcc t i)).owed)
        - ((lookupAcc t i).paid - (lookupAcc t i).owed) := by
  induction t with
  | nil => simp [containsId] at h
  | cons p rest ih =>
      unfold modifyAcc
      by_cases hp : p.1 = i
      · rw [if_pos hp, sumNet_cons, sumNet_cons, lookupAcc_cons, if_pos hp]
        ring
      · rw [if_neg hp, sumNet_cons, sumNet_cons, lookupAcc_cons, if_neg hp,
          ih (by simpa [containsId_cons, hp] using h)]
        ring

theorem sumNet_applySettlement (t : Tracker) (s : Settlement) :
    sumNet (applySettlement t s) = sumNet t := by
  unfold applySettlement
  have hcF : containsId (ensureTracker (ensureTracker t s.fromMember) s.toMember)
      s.fromMember = true :=
    containsId_ensure_mono _ _ _ (containsId_ensure_self t s.fromMember)
  have hcT : containsId
      (modifyAcc (ensureTracker (ensureTracker t s.fromMember) s.toMember) s.fromMember
        (fun a => { a with owed := a.owed - parseCurrencyAmount s.amount }))
      s.toMember = true := by
    rw [containsId_modify]
    exact containsId_ensure_self _ s.toMember
  rw [sumNet_modify _ _ _ hcT, sumNet_modify _ _ _ hcF, sumNet_ensure, sumNet_ensure]
  dsimp
  ring

theorem sumNet_applyExpense (t : Tracker) (e : Expense) :
    sumNet (applyExpense t e) = sumNet t + expenseDelta e := by
  unfold applyExpense expenseDelta splitsTotal
  set step := fun (acc : Tracker) (s : ExpenseSplit) =>
    modifyAcc (ensureTracker acc s.memberId) s.memberId
      (fun a => { a with owed := a.owed + parseCurrencyAmount s.share }) with hstep
  have hfold : ∀ (l : List ExpenseSplit) (t0 : Tracker),
      sumNet (l.foldl step t0)
        = sumNet t0 - (l.map (fun s => parseCurrencyAmount s.share)).sum := by
    intro l
    induction l with
    | nil => intro t0; simp
    | cons s l ih =>
        intro t0
        rw [List.foldl_cons, ih, List.map_cons, List.sum_cons]
        have hstep1 : sumNet (step t0 s) = sumNet t0 - parseCurrencyAmount s.share := by
          rw [hstep]
          dsimp only
          rw [sumNet_modify _ _ _ (containsId_ensure_self t0 s.memberId), sumNet_ensure]
          dsimp
          ring
        rw [hstep1]
        ring
  match hpay : e.payerId with
  | some pid =>
      rw [hfold]
      rw [sumNet_modify _ _ _ (containsId_ensure_self t pid), sumNet_ensure]
      dsimp
      ring
  | none =>
      rw [hfold]
      ring

theorem sumNet_expenses_fold (expenses : List Expense) :
    ∀ (t0 : Tracker),
      sumNet (expenses.foldl applyExpense t0)
        = sumNet t0 + (expenses.map expenseDelta).sum := by
  induction expenses with
  | nil => intro t0; simp
  | cons e l ih =>
      intro t0
      rw [List.foldl_cons, ih, sumNet_applyExpense, List.map_cons, List.sum_cons]
      ring

theorem sumNet_seed_fold (memberIds : List String) :
    ∀ (t0 : Tracker), sumNet (memberIds.foldl ensureTracker t0) = sumNet t0 := by
  induction memberIds with
  | nil => intro t0; rfl
  | cons m l ih =>
      intro t0
      rw [List.foldl_cons, ih, sumNet_ensure]

theorem sumNet_settlements_fold (settlements : List Settlement) :
    ∀ (t0 : Tracker), sumNet (settlements.foldl applySettlement t0) = sumNet t0 := by
  induction settlements with
  | nil => intro t0; rfl
  | cons s l ih =>
      intro t0
      rw [List.foldl_cons, ih, sumNet_applySettlement]

/-- The group tracker's net sum is exactly the sum of the per-expense
deltas: seeds and settlements contribute nothing. -/
theorem sumNet_computeGroupTracker (memberIds : List String) (expenses : List Expense)
    (settlements : List Settlement) :
    sumNet (computeGroupTracker memberIds expenses settlements)
      = (expenses.map expenseDelta).sum := by
  unfold computeGroupTracker
  rw [sumNet_settlements_fold, sumNet_seed_fold, sumNet_expenses_fold, sumNet_nil, zero_add]

theorem abs_list_sum_le (c : ℚ) :
    ∀ (l : List ℚ), (∀ x ∈ l, |x| ≤ c) → |l.sum| ≤ l.length * c := by
  intro l
  induction l with
  | nil => simp
  | cons x l ih =>
      intro h
      rw [List.sum_cons, List.length_cons]
      calc |x + l.sum| ≤ |x| + |l.sum| := abs_add _ _
        _ ≤ c + l.length * c := by
            have h1 := h x (List.mem_cons_self x l)
            have h2 := ih (fun y hy => h y (List.mem_cons_of_mem x hy))
            linarith
        _ = (l.length + 1) * c := by ring
      exact le_of_eq (by push_cast; ring)

/-- C3 counterexample: two expenses, each with a well-formed payer and
splits within the 0.01 tolerance, already drive the group-wide net sum
to 0.02 — the claimed *total* tolerance of 0.01 is exceeded. -/
theorem balance_zero_sum_total_counterexample :
    (∀ e ∈ [Expense.mk (some "a") (.num 1) [⟨"b", .num (99/100)⟩],
            Expense.mk (some "a") (.num 1) [⟨"b", .num (99/100)⟩]],
        |parseCurrencyAmount e.amount - splitsTotal e| ≤ 1/100) ∧
      sumNet (computeGroupTracker ["a", "b"]
        [Expense.mk (some "a") (.num 1) [⟨"b", .num (99/100)⟩],
         Expense.mk (some "a") (.num 1) [⟨"b", .num (99/100)⟩]] []) = 2/100 ∧
      ¬ |sumNet (computeGroupTracker ["a", "b"]
        [Expense.mk (some "a") (.num 1) [⟨"b", .num (99/100)⟩],
         Expense.mk (some "a") (.num 1) [⟨"b", .num (99/100)⟩]] [])| ≤ 1/100 := by
  have h : sumNet (computeGroupTracker ["a", "b"]
      [Expense.mk (some "a") (.num 1) [⟨"b", .num (99/100)⟩],
       Expense.mk (some "a") (.num 1) [⟨"b", .num (99/100)⟩]] []) = 2/100 := by
    simp [computeGroupTracker, applyExpense, applySettlement, ensureTracker,
      modifyAcc, containsId, parseCurrencyAmount, sumNet]
    norm_num
  refine ⟨?_, h, ?_⟩
  · intro e he
    fin_cases he <;>
      exact abs_le.mpr (by constructor <;> norm_num [parseCurrencyAmount, splitsTotal])
  · rw [h, abs_of_nonneg (by norm_num : (0:ℚ) ≤ 2/100)]
    norm_num

/-- C3 (amended). **Balance zero-sum within a group**: when every
expense has a payer and splits summing to its amount within the 0.01
tolerance, the sum of net over all members is 0 up to 0.01 *per
expense* (not 0.01 in total), for an arbitrary settlement list; it is
exactly 0 when every expense's splits sum exactly to its amount. -/
theorem balance_zero_sum_bounded (memberIds : List String) (expenses : List Expense)
    (settlements : List Settlement)
    (hpay : ∀ e ∈ expenses, e.payerId.isSome)
    (htol : ∀ e ∈ expenses, |parseCurrencyAmount e.amount - splitsTotal e| ≤ 1/100) :
    |sumNet (computeGroupTracker memberIds expenses settlements)|
        ≤ expenses.length * (1/100) ∧
      ((∀ e ∈ expenses, parseCurrencyAmount e.amount = splitsTotal e) →
        sumNet (computeGroupTracker memberIds expenses settlements) = 0) := by
  have hdelta : ∀ e ∈ expenses, expenseDelta e
      = parseCurrencyAmount e.amount - splitsTotal e := by
    intro e he
    unfold expenseDelta
    rcases hps : e.payerId with _ | pid
    · exact absurd (hpay e he) (by rw [hps]; simp)
    · rfl
  rw [sumNet_computeGroupTracker]
  constructor
  · have := abs_list_sum_le (1/100) (expenses.map expenseDelta)
      (by
        intro x hx
        rcases List.mem_map.mp hx with ⟨e, he, rfl⟩
        rw [hdelta e he]
        exact htol e he)
    simpa using this
  · intro hexact
    have : ∀ x ∈ expenses.map expenseDelta, x = 0 := by
      intro x hx
      rcases List.mem_map.mp hx with ⟨e, he, rfl⟩
      rw [hdelta e he, hexact e he, sub_self]
    exact List.sum_eq_zero this

/-- C3 witness: one exact expense, one settlement. -/
theorem balance_zero_sum_bounded_witness :
    |sumNet (computeGroupTracker ["a", "b"]
        [Expense.mk (some "a") (.num 1) [⟨"b", .num 1⟩]]
        [⟨"b", "a", .num 1⟩])| ≤ ([Expense.mk (some "a") (.num 1) [⟨"b", .num 1⟩]].length : ℚ) * (1/100) :=
  (balance_zero_sum_bounded ["a", "b"]
    [Expense.mk (some "a") (.num 1) [⟨"b", .num 1⟩]] [⟨"b", "a", .num 1⟩]
    (by decide)
    (by
      intro e he
      fin_cases he
      exact abs_le.mpr (by constructor <;> norm_num [parseCurrencyAmount, splitsTotal]))).1

/-! ## Membership-coverage lemmas -/

theorem containsId_splits_fold_mono (l : List ExpenseSplit) (j : String) :
    ∀ (t0 : Tracker), containsId t0 j = true →
      containsId
        (l.foldl
          (fun acc s =>
            modifyAcc (ensureTracker acc s.memberId) s.memberId
              (fun a => { a with owed := a.owed + parseCurrencyAmount s.share }))
          t0) j = true := by
  induction l with
  | nil => intro t0 h0; exact h0
  | cons s l ih =>
      intro t0 h0
      apply ih
      rw [containsId_modify]
      exact containsId_ensure_mono _ _ _ h0

theorem containsId_applyExpense_mono (t : Tracker) (e : Expense) (j : String)
    (h : containsId t j = true) : containsId (applyExpense t e) j = true := by
  unfold applyExpense
  apply containsId_splits_fold_mono
  match e.payerId with
  | some pid =>
      rw [containsId_modify]
      exact containsId_ensure_mono _ _ _ h
  | none => exact h

theorem containsId_applySettlement_mono (t : Tracker) (s : Settlement) (j : String)
    (h : containsId t j = true) : containsId (applySettlement t s) j = true := by
  unfold applySettlement
  rw [containsId_modify, containsId_modify]
  exact containsId_ensure_mono _ _ _ (containsId_ensure_mono _ _ _ h)

theorem containsId_settlements_fold_mono (settlements : List Settlement) (j : String) :
    ∀ (t0 : Tracker), containsId t0 j = true →
      containsId (settlements.foldl applySettlement t0) j = true := by
  induction settlements with
  | nil => intro t0 h0; exact h0
  | cons s l ih =>
      intro t0 h0
      exact ih _ (containsId_applySettlement_mono t0 s j h0)

theorem containsId_seed_fold_mono (memberIds : List String) (j : String) :
    ∀ (t0 : Tracker), containsId t0 j = true →
      containsId (memberIds.foldl ensureTracker t0) j = true := by
  induction memberIds with
  | nil => intro t0 h0; exact h0
  | cons m l ih =>
      intro t0 h0
      exact ih _ (containsId_ensure_mono _ _ _ h0)

theorem containsId_seed_fold_mem (memberIds : List String) (j : String)
    (hj : j ∈ memberIds) :
    ∀ (t0 : Tracker), containsId (memberIds.foldl ensureTracker t0) j = true := by
  induction memberIds with
  | nil => cases hj
  | cons m l ih =>
      intro t0
      rcases List.mem_cons.mp hj with rfl | hmem
      · exact containsId_seed_fold_mono l j _ (containsId_ensure_self t0 j)
      · exact ih hmem _

/-- The payer id is tracked after the expense step (when present). -/
theorem containsId_applyExpense_payer (t : Tracker) (e : Expense) (pid : String)
    (h : e.payerId = some pid) : containsId (applyExpense t e) pid = true := by
  have hbase : containsId
      (match e.payerId with
       | some pid =>
           modifyAcc (ensureTracker t pid) pid
             (fun a => { a with paid := a.paid + parseCurrencyAmount e.amount })
       | none => t) pid = true := by
    rw [h]
    rw [containsId_modify]
    exact containsId_ensure_self t pid
  unfold applyExpense
  exact containsId_splits_fold_mono _ _ _ hbase

/-- Every split member is tracked after the expense step. -/
theorem containsId_applyExpense_split (t : Tracker) (e : Expense) (sp : ExpenseSplit)
    (h : sp ∈ e.splits) : containsId (applyExpense t e) sp.memberId = true := by
  unfold applyExpense
  have hfold : ∀ (l : List ExpenseSplit) (t0 : Tracker), sp ∈ l →
      containsId
        (l.foldl
          (fun acc s =>
            modifyAcc (ensureTracker acc s.memberId) s.memberId
              (fun a => { a with owed := a.owed + parseCurrencyAmount s.share }))
          t0) sp.memberId = true := by
    intro l
    induction l with
    | nil => intro t0 h0; cases h0
    | cons s l ih =>
        intro t0 h0
        rcases List.mem_cons.mp h0 with rfl | hmem
        · rw [List.foldl_cons]
          apply containsId_splits_fold_mono
          rw [containsId_modify]
          exact containsId_ensure_self t0 sp.memberId
        · exact ih _ hmem
  exact hfold _ _ h

/-- `normalizeGroupMembers` always lists the owner. -/
theorem owner_mem_normalizeGroupMembers (ownerId : String) (memberIds : List String) :
    ownerId ∈ normalizeGroupMembers ownerId memberIds := by
  unfold normalizeGroupMembers
  split
  · rename_i h
    rcases List.any_eq_true.mp h with ⟨x, hx, hp⟩
    rcases of_decide_eq_true hp with rfl
    exact hx
  · exact List.mem_append_right _ (List.mem_singleton.mpr rfl)

/-- `normalizeGroupMembers` keeps every existing member. -/
theorem mem_normalizeGroupMembers (ownerId : String) (memberIds : List String)
    (m : String) (hm : m ∈ memberIds) : m ∈ normalizeGroupMembers ownerId memberIds := by
  unfold normalizeGroupMembers
  split
  · exact hm
  · exact List.mem_append_left _ hm

/-- C6. **Coverage of the balance computation**: seeding the tracker
with the normalized member list guarantees a balance entry for the
owner (even without a membership row), for every current member, and —
independently of membership — for every expense payer and every split
participant appearing in the group's expenses. -/
theorem balances_cover_members_and_participants (ownerId : String)
    (memberIds : List String) (expenses : List Expense) (settlements : List Settlement) :
    containsId (computeGroupTracker (normalizeGroupMembers ownerId memberIds)
        expenses settlements) ownerId = true ∧
      (∀ m ∈ memberIds,
        containsId (computeGroupTracker (normalizeGroupMembers ownerId memberIds)
          expenses settlements) m = true) ∧
      (∀ e ∈ expenses, ∀ pid, e.payerId = some pid →
        containsId (computeGroupTracker (normalizeGroupMembers ownerId memberIds)
          expenses settlements) pid = true) ∧
      (∀ e ∈ expenses, ∀ sp ∈ e.splits,
        containsId (computeGroupTracker (normalizeGroupMembers ownerId memberIds)
          expenses settlements) sp.memberId = true) := by
  unfold computeGroupTracker
  have hexp_fold : ∀ (l : List Expense) (t0 : Tracker) (j : String),
      containsId t0 j = true → containsId (l.foldl applyExpense t0) j = true := by
    intro l
    induction l with
    | nil => intro t0 j h0; exact h0
    | cons e l ih =>
        intro t0 j h0
        exact ih _ _ (containsId_applyExpense_mono t0 e j h0)
  have hexp_payer : ∀ (l : List Expense) (t0 : Tracker), ∀ e ∈ l, ∀ pid,
      e.payerId = some pid → containsId (l.foldl applyExpense t0) pid = true := by
    intro l
    induction l with
    | nil => intro t0 e he; cases he
    | cons e' l ih =>
        intro t0 e he pid hpid
        rcases List.mem_cons.mp he with rfl | hmem
        · rw [List.foldl_cons]
          exact hexp_fold _ _ _ (containsId_applyExpense_payer t0 e pid hpid)
        · exact ih _ e hmem pid hpid
  have hexp_split : ∀ (l : List Expense) (t0 : Tracker), ∀ e ∈ l, ∀ sp ∈ e.splits,
      containsId (l.foldl applyExpense t0) sp.memberId = true := by
    intro l
    induction l with
    | nil => intro t0 e he; cases he
    | cons e' l ih =>
        intro t0 e he sp hsp
        rcases List.mem_cons.mp he with rfl | hmem
        · rw [List.foldl_cons]
          exact hexp_fold _ _ _ (containsId_applyExpense_split t0 e sp hsp)
        · exact ih _ e hmem sp hsp
  refine ⟨?_, ?_, ?_, ?_⟩
  · exact containsId_settlements_fold_mono _ _ _
      (containsId_seed_fold_mem _ _ (owner_mem_normalizeGroupMembers ownerId memberIds) _)
  · intro m hm
    exact containsId_settlements_fold_mono _ _ _
      (containsId_seed_fold_mem _ _ (mem_normalizeGroupMembers ownerId memberIds m hm) _)
  · intro e he pid hpid
    exact containsId_settlements_fold_mono _ _ _
      (containsId_seed_fold_mono _ _ _ (hexp_payer _ _ e he pid hpid))
  · intro e he sp hsp
    exact containsId_settlements_fold_mono _ _ _
      (containsId_seed_fold_mono _ _ _ (hexp_split _ _ e he sp hsp))

/-- C6 witness: owner `"o"` with no membership row, member `"m"`, an
expense paid by the ex-member `"x"` split with `"y"`. -/
theorem balances_cover_witness :
    containsId (computeGroupTracker (normalizeGroupMembers "o" ["m"])
        [Expense.mk (some "x") (.num 3) [⟨"y", .num 3⟩]] []) "o" = true ∧
      containsId (computeGroupTracker (normalizeGroupMembers "o" ["m"])
        [Expense.mk (some "x") (.num 3) [⟨"y", .num 3⟩]] []) "x" = true :=
  ⟨(balances_cover_members_and_participants "o" ["m"]
      [Expense.mk (some "x") (.num 3) [⟨"y", .num 3⟩]] []).1,
   (balances_cover_members_and_participants "o" ["m"]
      [Expense.mk (some "x") (.num 3) [⟨"y", .num 3⟩]] []).2.2.1
      (Expense.mk (some "x") (.num 3) [⟨"y", .num 3⟩])
      (List.mem_singleton.mpr rfl) "x" rfl⟩

/-! ## Missing-field handling (C7) -/

/-- C7 counterexample: an expense whose `amount` is not a number and
whose only split share is an unparseable string folds **successfully**
into the tracker, accumulating zeros under the raw ids — no
input-validation error is raised or surfaced. -/
theorem missing_field_treated_as_zero_counterexample :
    applyExpense [] (Expense.mk (some "a") .other [⟨"b", .str none⟩])
        = [("a", ⟨0, 0⟩), ("b", ⟨0, 0⟩)] ∧
      parseCurrencyAmount .other = 0 ∧ parseCurrencyAmount (.str none) = 0 := by
  refine ⟨?_, rfl, rfl⟩
  simp [applyExpense, ensureTracker, modifyAcc, containsId, parseCurrencyAmount]

/-- C7 (amended). **Aggregator never fails**: the fold is total — a
payer or split member that resolves to no profile is still accumulated
under its raw id (profile metadata never reaches the accumulator), and
a record missing a required numeric field is parsed as 0 and folded as
a zero amount rather than surfaced as an error. -/
theorem aggregator_never_fails (t : Tracker) (e : Expense) (s : Settlement)
    (hea : e.amount = .other) (hsa : s.amount = .other) :
    (∀ pid, e.payerId = some pid → containsId (applyExpense t e) pid = true) ∧
      (∀ sp ∈ e.splits, containsId (applyExpense t e) sp.memberId = true) ∧
      applyExpense t e = applyExpense t { e with amount := .num 0 } ∧
      applySettlement t s = applySettlement t { s with amount := .num 0 } := by
  refine ⟨?_, ?_, ?_, ?_⟩
  · intro pid hpid
    exact containsId_applyExpense_payer t e pid hpid
  · intro sp hsp
    exact containsId_applyExpense_split t e sp hsp
  · unfold applyExpense
    rw [hea]
    rfl
  · unfold applySettlement
    rw [hsa]
    rfl

/-- C7 witness: concrete malformed records. -/
theorem aggregator_never_fails_witness :
    applyExpense [] (Expense.mk (some "a") .other [])
        = applyExpense [] { Expense.mk (some "a") .other [] with amount := .num 0 } :=
  (aggregator_never_fails [] (Expense.mk (some "a") .other [])
    (Settlement.mk "a" "b" .other) rfl rfl).2.2.1

/-! ## Write-boundary validation theorems -/

theorem foldl_share_sum (l : List SplitShareInput) :
    ∀ (init : ℚ), l.foldl (fun sum split => sum + split.share) init
      = init + (l.map (fun s => s.share)).sum := by
  induction l with
  | nil => intro init; simp
  | cons s l ih =>
      intro init
      rw [List.foldl_cons, ih, List.map_cons, List.sum_cons]
      ring

/-- C8. **Tolerance boundary**: with a non-empty split list, expense
creation and update accept the input exactly when the split total
differs from the amount by at most 0.01 — so a split summing to
amount ± 0.01 passes and one summing to amount ± 0.02 is rejected. -/
theorem custom_split_tolerance (input : CreateExpenseInput)
    (hne : input.splits ≠ []) :
    (createExpense input = Except.ok ()
        ↔ |(input.splits.map (fun s => s.share)).sum - input.amount| ≤ 1/100) ∧
      (updateExpense input = Except.ok ()
        ↔ |(input.splits.map (fun s => s.share)).sum - input.amount| ≤ 1/100) := by
  have hlen : ¬ input.splits.length = 0 := fun h => hne (List.length_eq_zero.mp h)
  constructor
  · unfold createExpense
    rw [if_neg hlen, foldl_share_sum, zero_add]
    dsimp only
    split_ifs with h
    · exact iff_of_false (by simp) (not_le.mpr h)
    · exact iff_of_true rfl (not_lt.mp h)
  · unfold updateExpense
    rw [if_neg hlen, foldl_share_sum, zero_add]
    dsimp only
    split_ifs with h
    · exact iff_of_false (by simp) (not_le.mpr h)
    · exact iff_of_true rfl (not_lt.mp h)

/-- C8 witness: amount 10.00 — a single split of 10.01 is accepted and
a single split of 10.02 is rejected, on creation and update alike. -/
theorem custom_split_tolerance_witness :
    createExpense ⟨"g", "dinner", 10, "p", "2025-01-01", [⟨"a", 1001/100⟩], none⟩
        = Except.ok () ∧
      ¬ createExpense ⟨"g", "dinner", 10, "p", "2025-01-01", [⟨"a", 1002/100⟩], none⟩
        = Except.ok () ∧
      updateExpense ⟨"g", "dinner", 10, "p", "2025-01-01", [⟨"a", 1001/100⟩], none⟩
        = Except.ok () ∧
      ¬ updateExpense ⟨"g", "dinner", 10, "p", "2025-01-01", [⟨"a", 1002/100⟩], none⟩
        = Except.ok () := by
  have hin : |(([⟨"a", 1001/100⟩] : List SplitShareInput).map (fun s => s.share)).sum - (10:ℚ)|
      ≤ 1/100 := abs_le.mpr (by constructor <;> norm_num)
  have hout : ¬ |(([⟨"a", 1002/100⟩] : List SplitShareInput).map (fun s => s.share)).sum - (10:ℚ)|
      ≤ 1/100 := by
    rw [show (([⟨"a", 1002/100⟩] : List SplitShareInput).map (fun s => s.share)).sum - (10:ℚ)
        = 2/100 by norm_num,
      abs_of_nonneg (by norm_num : (0:ℚ) ≤ 2/100)]
    norm_num
  have ht1 := custom_split_tolerance
    ⟨"g", "dinner", 10, "p", "2025-01-01", [⟨"a", 1001/100⟩], none⟩ (by simp)
  have ht2 := custom_split_tolerance
    ⟨"g", "dinner", 10, "p", "2025-01-01", [⟨"a", 1002/100⟩], none⟩ (by simp)
  exact ⟨ht1.1.mpr hin, fun h => hout (ht2.1.mp h),
    ht1.2.mpr hin, fun h => hout (ht2.2.mp h)⟩

/-- C9 counterexample: `updateSettlement` applied with
`fromMemberId = toMemberId = "alice"` succeeds and writes a settlement
row whose endpoints are identical — no validation error. -/
theorem settlement_update_skips_check_counterexample :
    updateSettlement ⟨"s1", none, some "alice", some "alice", none, none⟩
        ⟨"g", "alice", "bob", 5, none⟩
        = Except.ok ⟨"g", "alice", "alice", 5, none⟩ ∧
      (SettlementRow.mk "g" "alice" "alice" 5 none).fromMember
        = (SettlementRow.mk "g" "alice" "alice" 5 none).toMember :=
  ⟨rfl, rfl⟩

/-- C9 (amended). **Distinct settlement endpoints on creation only**:
`createSettlement` rejects identical from/to members with a validation
error (and writes nothing), and otherwise writes a row with distinct
endpoints; `updateSettlement` performs no such check and accepts every
update. -/
theorem settlement_distinct_members_create_only :
    (∀ input : CreateSettlementInput, input.fromMemberId = input.toMemberId →
        createSettlement input = Except.error "Members must be different for a settlement") ∧
      (∀ input : CreateSettlementInput, input.fromMemberId ≠ input.toMemberId →
        ∃ row, createSettlement input = Except.ok row ∧ row.fromMember ≠ row.toMember) ∧
      (∀ (input : UpdateSettlementInput) (existing : SettlementRow),
        (updateSettlement input existing).isOk = true) := by
  refine ⟨?_, ?_, ?_⟩
  · intro input h
    unfold createSettlement
    rw [if_pos h]
  · intro input h
    unfold createSettlement
    rw [if_neg h]
    exact ⟨_, rfl, h⟩
  · intro input existing
    rfl

/-- C9 witness: a same-member creation is rejected; a distinct-member
creation succeeds. -/
theorem settlement_distinct_members_create_only_witness :
    createSettlement ⟨"g", "a", "a", 5, none⟩
        = Except.error "Members must be different for a settlement" ∧
      ∃ row, createSettlement ⟨"g", "a", "b", 5, none⟩ = Except.ok row
        ∧ row.fromMember ≠ row.toMember :=
  ⟨settlement_distinct_members_create_only.1 ⟨"g", "a", "a", 5, none⟩ rfl,
   settlement_distinct_members_create_only.2.1 ⟨"g", "a", "b", 5, none⟩ (by decide)⟩

/-! ## Per-currency aggregation theorems -/

theorem lookupTotals_nil (c : String) : lookupTotals [] c = none := rfl

theorem lookupTotals_cons (k : String) (v : Totals) (rest : List (String × Totals))
    (c : String) :
    lookupTotals ((k, v) :: rest) c = if k = c then some v else lookupTotals rest c := by
  unfold lookupTotals
  by_cases h : k = c
  · simp [h]
  · simp [h]

/-- The bucket update touches exactly one currency key: the updated key
reads as the old bucket (or `⟨0,0,0⟩`) plus the new row, every other key
is untouched. -/
theorem lookupTotals_upsert (l : List (String × Totals)) (c c' : String)
    (m : MemberBalance) :
    lookupTotals (upsertTotals l c m) c'
      = if c' = c then some (addTotals ((lookupTotals l c).getD ⟨0, 0, 0⟩) m)
        else lookupTotals l c' := by
  induction l with
  | nil =>
      by_cases h : c' = c
      · simp [upsertTotals, lookupTotals_cons, lookupTotals_nil, h]
      · have h2 : ¬ c = c' := fun hx => h hx.symm
        rw [if_neg h]
        unfold upsertTotals
        rw [lookupTotals_cons, if_neg h2]
  | cons p rest ih =>
      rcases p with ⟨k, v⟩
      unfold upsertTotals
      by_cases hk : k = c
      · subst hk
        rw [if_pos rfl]
        by_cases h : c' = k
        · subst h
          simp [lookupTotals_cons]
        · have h2 : ¬ k = c' := fun hx => h hx.symm
          simp [lookupTotals_cons, h, h2]
      · rw [if_neg hk]
        by_cases h : c' = c
        · subst h
          simp [lookupTotals_cons, hk, ih]
        · simp [lookupTotals_cons, hk, h, ih]

theorem foldl_addTotals (es : List MemberBalance) :
    ∀ (a : Totals), es.foldl addTotals a
      = ⟨a.paid + (es.map (fun m => m.paid)).sum,
         a.owed + (es.map (fun m => m.owed)).sum,
         a.net + (es.map (fun m => m.net)).sum⟩ := by
  induction es with
  | nil => intro a; simp
  | cons m es ih =>
      intro a
      rw [List.foldl_cons, ih]
      simp only [addTotals, List.map_cons, List.sum_cons, Totals.mk.injEq]
      refine ⟨by ring, by ring, by ring⟩

/-- Invariant of the `currencyTotals` fold, generalized over the
accumulator. -/
theorem currencyTotals_fold_spec (u : String) (ss : List GroupSummary) :
    ∀ (acc : List (String × Totals)) (c : String),
      lookupTotals
          (ss.foldl
            (fun acc summary =>
              match summary.members.find? (fun m => m.memberId = u) with
              | none => acc
              | some currentUser => upsertTotals acc summary.currency currentUser)
            acc) c
        = if userEntriesFor u ss c = [] then lookupTotals acc c
          else some ((userEntriesFor u ss c).foldl addTotals
            ((lookupTotals acc c).getD ⟨0, 0, 0⟩)) := by
  induction ss with
  | nil =>
      intro acc c
      simp [userEntriesFor]
  | cons s rest ih =>
      intro acc c
      rw [List.foldl_cons]
      rcases hfind : s.members.find? (fun m => m.memberId = u) with _ | cu
      · have hue : userEntriesFor u (s :: rest) c = userEntriesFor u rest c := by
          simp [userEntriesFor, List.filterMap_cons, hfind]
        simp only [hfind]
        rw [hue]
        exact ih acc c
      · by_cases hcur : s.currency = c
        · subst hcur
          have hue : userEntriesFor u (s :: rest) s.currency
              = cu :: userEntriesFor u rest s.currency := by
            simp [userEntriesFor, List.filterMap_cons, hfind]
          simp only [hfind]
          rw [hue, ih]
          have hlk : lookupTotals (upsertTotals acc s.currency cu) s.currency
              = some (addTotals ((lookupTotals acc s.currency).getD ⟨0, 0, 0⟩) cu) := by
            rw [lookupTotals_upsert, if_pos rfl]
          by_cases hrest : userEntriesFor u rest s.currency = []
          · rw [if_pos hrest, if_neg (by simp), hrest, hlk]
            rfl
          · rw [if_neg hrest, if_neg (by simp), hlk, List.foldl_cons]
            rfl
        · have hue : userEntriesFor u (s :: rest) c = userEntriesFor u rest c := by
            simp [userEntriesFor, List.filterMap_cons, hcur]
          simp only [hfind]
          rw [hue, ih]
          have hlk : lookupTotals (upsertTotals acc s.currency cu) c = lookupTotals acc c := by
            rw [lookupTotals_upsert, if_neg (fun h : c = s.currency => hcur h.symm)]
          rw [hlk]

/-- C5. **Per-currency aggregation**: a currency bucket exists exactly
when some group with that currency has a balance row for the target
user, and it then holds the componentwise sums of the user's paid,
owed and net over exactly those groups — groups without a row for the
user are excluded, and distinct currencies are never merged.
Concretely: nets +20 USD and −5 USD aggregate to +15 USD, a 7 EUR
group stays a separate bucket, and a USD group not containing the user
contributes nothing. -/
theorem currency_aggregation_correct :
    (∀ (u : String) (ss : List GroupSummary) (c : String),
      lookupTotals (currencyTotals u ss) c
        = if userEntriesFor u ss c = [] then none
          else some ⟨((userEntriesFor u ss c).map (fun m => m.paid)).sum,
                     ((userEntriesFor u ss c).map (fun m => m.owed)).sum,
                     ((userEntriesFor u ss c).map (fun m => m.net)).sum⟩) ∧
      lookupTotals (currencyTotals "u"
          [⟨"USD", [⟨"u", 30, 10, 20⟩]⟩, ⟨"USD", [⟨"u", 0, 5, -5⟩]⟩,
           ⟨"EUR", [⟨"u", 7, 0, 7⟩]⟩, ⟨"USD", [⟨"w", 9, 9, 0⟩]⟩]) "USD"
        = some ⟨30, 15, 15⟩ ∧
      lookupTotals (currencyTotals "u"
          [⟨"USD", [⟨"u", 30, 10, 20⟩]⟩, ⟨"USD", [⟨"u", 0, 5, -5⟩]⟩,
           ⟨"EUR", [⟨"u", 7, 0, 7⟩]⟩, ⟨"USD", [⟨"w", 9, 9, 0⟩]⟩]) "EUR"
        = some ⟨7, 0, 7⟩ := by
  refine ⟨?_, ?_, ?_⟩
  · intro u ss c
    unfold currencyTotals
    rw [currencyTotals_fold_spec]
    by_cases h : userEntriesFor u ss c = []
    · rw [if_pos h, if_pos h, lookupTotals_nil]
    · rw [if_neg h, if_neg h, lookupTotals_nil, foldl_addTotals]
      simp
  · simp [currencyTotals, upsertTotals, lookupTotals, addTotals]
    norm_num
  · simp [currencyTotals, upsertTotals, lookupTotals, addTotals]

end Splitwisely
